import Mathlib

/-!
# jsRpcServer: the dispatch engine of `src/main.go`

A shallow embedding of the pattern matcher, the registry lookups, the member's
writer and reader loops, the Result pool and the asynchronous log sink, with
the properties stated about them.

Conventions of the embedding:
* a Go `string` is its sequence of bytes (`GoString`);
* a `sync.Map` is an association list; the order of the list is the order in
  which `Range` visits the entries, so quantifying over lists quantifies over
  iteration orders;
* a goroutine's `for { select { ... } }` loop is a function over the list of
  events the scheduler hands to it, in order;
* a pointer `*Result` is an `Option Result`, `none` being nil; a step that dereferences
  nil ends in a panic;
* a reply channel is named by a number and carries its buffer of capacity 1 and its
  parked receiver; a send that completes is recorded in a log, one that cannot
  complete parks the sender.
-/

namespace JsRpc

/-! ## Strings -/

/-- A Go string: a sequence of bytes. -/
abbrev GoString := List Nat

/-- The bytes of an ASCII literal. -/
def ascii (s : String) : GoString := s.toList.map Char.toNat

/-- Go `strings.HasPrefix(s, p)`: `len(s) >= len(p) && s[:len(p)] == p`. -/
def HasPrefix (s p : GoString) : Bool :=
  decide (p.length ≤ s.length) && (s.take p.length == p)

/-- Go `strings.HasSuffix(s, x)`: `len(s) >= len(x) && s[len(s)-len(x):] == x`. -/
def HasSuffix (s x : GoString) : Bool :=
  decide (x.length ≤ s.length) && (s.drop (s.length - x.length) == x)

/-- Go `strings.Contains(s, x)`: some suffix of `s` starts with `x`. -/
def Contains (s x : GoString) : Bool :=
  s.tails.any (fun t => HasPrefix t x)

/-- The function `match` of main.go (lines 52-61). The slices `rule[:len(rule)-2]` and
`rule[2:]` are taken as the source writes them; in both branches `rule` has
at least two bytes (see `match_slices_in_range`), so neither slice can fail. -/
def match' (rule text : GoString) : Bool :=
  if rule = ascii "*" then
    true
  else if HasSuffix rule (ascii "*") then
    HasPrefix text (rule.take (rule.length - 2))
  else if HasPrefix rule (ascii "*") then
    HasSuffix text (rule.drop 2)
  else
    rule == text

/-! ## sync.Map -/

namespace SyncMap

/-- Method `Load` of `sync.Map`: the value stored under `k`, if any. -/
def Load {β : Type} (m : List (GoString × β)) (k : GoString) : Option β :=
  (m.find? (fun e => e.1 == k)).map (fun e => e.2)

/-- Method `Delete` of `sync.Map`. -/
def Delete {β : Type} (m : List (GoString × β)) (k : GoString) : List (GoString × β) :=
  m.filter (fun e => !(e.1 == k))

/-- Method `Store` of `sync.Map`: replaces the value under `k`, or adds the entry. -/
def Store {β : Type} (m : List (GoString × β)) (k : GoString) (v : β) : List (GoString × β) :=
  if m.any (fun e => e.1 == k) then
    m.map (fun e => if e.1 == k then (k, v) else e)
  else
    m ++ [(k, v)]

/-- Method `Range` of `sync.Map`: calls `f` on each entry in turn, threading the variables the
closure captures (`σ`), and stops as soon as `f` returns `false`. -/
def Range {β σ : Type} (f : GoString → β → σ → σ × Bool) :
    List (GoString × β) → σ → σ
  | [], s => s
  | (k, v) :: rest, s =>
    match f k v s with
    | (s1, true) => Range f rest s1
    | (s1, false) => s1

end SyncMap

/-! ## Data model -/

/-- Struct `Message`. `callBack` names the reply channel; `none` is the nil channel. -/
structure Message where
  Id : GoString
  Action : GoString
  Param : GoString
  callBack : Option Nat
deriving DecidableEq, Repr

/-- Struct `Result`. `Data` is the decoded JSON value kept as its bytes; `none` is nil. -/
structure Result where
  Id : GoString
  Status : Int
  Data : Option GoString
  Msg : GoString
deriving DecidableEq, Repr

/-- Struct `member` without its socket: the socket is the stream of frames the
reader consumes and the list of frames the writer produces. `sender` is the
buffer, of capacity 1, of the channel to the writer. -/
structure member where
  name : GoString
  groupName : GoString
  waiting : Int
  sendNum : Int
  messages : List (GoString × Message)
  sender : List Message
deriving DecidableEq, Repr

/-- Struct `group`. -/
structure group where
  members : List (GoString × member)
  name : GoString
deriving DecidableEq, Repr

/-- Struct `all`: the registry. -/
structure all where
  data : List (GoString × group)
deriving DecidableEq, Repr

/-- A value wrapped to the range of `int32`, as `atomic.AddInt32` leaves it. -/
def wrapInt32 (x : Int) : Int := (x + 2147483648) % 4294967296 - 2147483648

/-- Method `member.send` (lines 133-138). The counters and the pending map are updated
first; then `m.sender <- message` completes if the channel, of capacity 1, has
room, and otherwise the caller stays parked in the send. The flag tells whether
the send completed. -/
def member.send (m : member) (message : Message) : member × Bool :=
  let m1 : member :=
    { m with
      waiting := wrapInt32 (m.waiting + 1)
      sendNum := wrapInt32 (m.sendNum + 1)
      messages := SyncMap.Store m.messages message.Id message }
  if m1.sender.length < 1 then
    ({ m1 with sender := m1.sender ++ [message] }, true)
  else
    (m1, false)

/-- Method `member.over` (lines 140-143). -/
def member.over (m : member) (message : Message) : member :=
  { m with
    waiting := wrapInt32 (m.waiting - 1)
    messages := SyncMap.Delete m.messages message.Id }

/-! ## Registry lookups -/

/-- Method `all.load` (lines 42-50). -/
def all.load (a : all) (groupName memberName : GoString) : Option member :=
  match SyncMap.Load a.data groupName with
  | some g =>
    match SyncMap.Load g.members memberName with
    | some value => some value
    | none => none
  | none => none

/-- The closure passed to `Range` in `loadLike` (lines 67-83); the captured variable is `r`. -/
def loadLikeVisit (memberName : GoString) (key : GoString) (m : member) (r : Option member) :
    Option member × Bool :=
  if !match' memberName key then
    (r, true)
  else if m.waiting ≤ 3 then
    (some m, false)
  else
    let r1 : member := match r with
      | none => m
      | some x => x
    let r2 : member := if m.waiting < r1.waiting then m else r1
    (some r2, true)

/-- Method `all.loadLike` (lines 63-87). -/
def all.loadLike (a : all) (groupName memberName : GoString) : Option member :=
  match SyncMap.Load a.data groupName with
  | some g => SyncMap.Range (loadLikeVisit memberName) g.members none
  | none => none

/-- Method `all.del` (lines 89-102). -/
def all.del (a : all) (groupName memberName : GoString) : all :=
  match SyncMap.Load a.data groupName with
  | some g =>
    let g1 : group := { g with members := SyncMap.Delete g.members memberName }
    let d : Bool := SyncMap.Range (fun _ _ _ => (false, false)) g1.members true
    if d then
      { data := SyncMap.Delete a.data groupName }
    else
      { data := SyncMap.Store a.data groupName g1 }
  | none => a

/-! ## The Result pool -/

/-- The bytes of a string literal in UTF-8. -/
def utf8 (s : String) : GoString :=
  s.toList.flatMap (fun c => (String.utf8EncodeChar c).map UInt8.toNat)

/-- The variable `resultPool`, a `sync.Pool`, as the callers of one processor see it between
two garbage collections: the processor's private slot and its shared stack,
newest first. What is pooled is a pointer `*Result`; `none` is the nil pointer,
which `Put` accepts like any other, since only a nil interface is refused. -/
structure Pool where
  privateSlot : Option (Option Result)
  shared : List (Option Result)
deriving DecidableEq, Repr

/-- A pool that holds nothing. -/
def Pool.empty : Pool := { privateSlot := none, shared := [] }

/-- The `New` function of `resultPool`: `&Result{}`. -/
def Pool.New : Option Result := some { Id := [], Status := 0, Data := none, Msg := [] }

/-- Method `Get` of `sync.Pool`: the private slot if it is filled, else the head of the shared
stack, else a new Result. -/
def Pool.Get (p : Pool) : Option Result × Pool :=
  match p.privateSlot with
  | some x => (x, { p with privateSlot := none })
  | none =>
    match p.shared with
    | x :: rest => (x, { p with shared := rest })
    | [] => (Pool.New, p)

/-- Method `Put` of `sync.Pool`: into the private slot if it is free, else on top of the
shared stack. -/
def Pool.Put (p : Pool) (x : Option Result) : Pool :=
  match p.privateSlot with
  | none => { p with privateSlot := some x }
  | some _ => { p with shared := x :: p.shared }

/-- The function `NewResult` (lines 321-327): takes a Result from the pool and assigns
`Status`, `Data` and `Msg`. The assignment through a nil pointer panics: `none`. -/
def NewResult (resultPool : Pool) (Status : Int) (Data : Option GoString) (Msg : GoString) :
    Option (Result × Pool) :=
  match Pool.Get resultPool with
  | (some result, rest) => some ({ result with Status := Status, Data := Data, Msg := Msg }, rest)
  | (none, _) => none

/-- The reply of `doExec`: the HTTP status and the Result that is marshalled into the body. -/
structure Response where
  code : Nat
  body : Result
deriving DecidableEq, Repr

/-- Member selection of `doExec` (lines 273-278). -/
def doExec_select (allWs : all) (name groupName : GoString) : Option member :=
  if Contains name (ascii "*") then allWs.loadLike groupName name else allWs.load groupName name

/-- The branch `m == nil` of `doExec` (lines 279-286): the body is the Result obtained from
`NewResult`, which the deferred `Put` then returns to the pool; `none` when
`NewResult` panics. -/
def doExec_noMember (resultPool : Pool) : Option (Response × Pool) :=
  match NewResult resultPool 1 none (utf8 "没有找到指定连接") with
  | some (result, rest) => some ({ code := 200, body := result }, Pool.Put rest (some result))
  | none => none

/-- The timeout branch of `doExec` (lines 311-317); `none` when `NewResult` panics. -/
def doExec_timeout (resultPool : Pool) : Option (Response × Pool) :=
  match NewResult resultPool 1 none (utf8 "超时") with
  | some (result, rest) => some ({ code := 500, body := result }, Pool.Put rest (some result))
  | none => none

/-- The reply branch of `doExec` (lines 298-310) for a Result that marshals: the body is the
Result received, the status 500 when `Status` is not 0, and the deferred `Put`
returns the Result, with the id it carries, to the pool. -/
def doExec_reply (resultPool : Pool) (r : Result) : Response × Pool :=
  ({ code := if r.Status ≠ 0 then 500 else 200, body := r }, Pool.Put resultPool (some r))

/-! ## Loops -/

/-- What the body of a `for` loop does when it ends: `again` starts the next iteration
(falling off the end of the body, `continue`, or a `break` that only leaves a
`select`), `leave` is a `break` bound to the `for` itself. -/
inductive Ctl where
  | again
  | leave
deriving DecidableEq, Repr

/-! ## Member: writer goroutine (lines 155-181) -/

/-- The three cases of the writer's `select`. -/
inductive WriterEvent where
  | timer
  | message (m : Message)
  | over (e : GoString)
deriving DecidableEq, Repr

/-- The writer's variables: the batch `w`, and the frames passed to `conn.WriteJSON` so
far, oldest first. A failed write is only logged, so its outcome is not part
of the state. -/
structure WriterState where
  w : List Message
  socket : List (List Message)
deriving DecidableEq, Repr

/-- One iteration of the writer's loop, for the case of the `select` that fires. -/
def writerSelect (ev : WriterEvent) (s : WriterState) : WriterState × Ctl :=
  match ev with
  | .timer =>
    if s.w.length = 0 then
      (s, .again)
    else
      ({ w := [], socket := s.socket ++ [s.w] }, .again)
  | .message message =>
    let w := s.w ++ [message]
    if w.length ≥ 100 then
      ({ w := [], socket := s.socket ++ [w] }, .again)
    else
      ({ s with w := w }, .again)
  | .over _ =>
    -- `break` inside a `select` case leaves the `select`, not the `for`
    (s, .again)

/-- The writer's `for` loop over the events that fire, in order. Returns the final state
and the events that were never taken because the loop had ended. -/
def writerLoop : List WriterEvent → WriterState → WriterState × List WriterEvent
  | [], s => (s, [])
  | ev :: rest, s =>
    match writerSelect ev s with
    | (s1, .again) => writerLoop rest s1
    | (s1, .leave) => (s1, rest)

/-- The writer as the goroutine starts it: `var w []*Message`, nothing written. -/
def WriterState.init : WriterState := { w := [], socket := [] }

/-! ## Member: reader goroutine (lines 182-216) -/

/-- Outcome of `conn.ReadMessage`: an error, or the bytes of one frame. -/
inductive Frame where
  | failure (err : GoString)
  | payload (b : GoString)
deriving DecidableEq, Repr

/-- A reply channel, `make(chan *Result, 1)`: the values in its buffer, and whether the
dispatcher that made it is parked in its `select`, waiting to receive. -/
structure Chan where
  buf : List Result
  receiver : Bool
deriving DecidableEq, Repr

/-- A channel as `make` returns it: nothing buffered, nobody waiting. -/
def Chan.fresh : Chan := { buf := [], receiver := false }

/-- The send `ch <- v` on a reply channel: the value goes to a parked receiver if there is
one, else into the buffer if fewer than 1 value is buffered; otherwise the
sender parks and the send has not happened: `none`. -/
def Chan.send (ch : Chan) (v : Result) : Option Chan :=
  if ch.receiver then
    some { ch with receiver := false }
  else if ch.buf.length < 1 then
    some { ch with buf := ch.buf ++ [v] }
  else
    none

/-- The state of the channel named `c`. -/
def chanAt (chans : List (Nat × Chan)) (c : Nat) : Chan :=
  match chans.find? (fun e => e.1 == c) with
  | some e => e.2
  | none => Chan.fresh

/-- The channels after the one named `c` has become `ch`. -/
def chanSet (chans : List (Nat × Chan)) (c : Nat) (ch : Chan) : List (Nat × Chan) :=
  if chans.any (fun e => e.1 == c) then
    chans.map (fun e => if e.1 == c then (c, ch) else e)
  else
    chans ++ [(c, ch)]

/-- How an iteration of the reader ends: `again` and `leave` as in `Ctl`; `panic` is a
nil pointer dereference, which ends the goroutine and, nothing recovering it,
the process; `park` is the goroutine blocked in a channel send. -/
inductive ReaderCtl where
  | again
  | leave
  | panic
  | park
deriving DecidableEq, Repr

/-- What the reader can touch: the registry `allWs`, the pool, the member's pending map
(`messages`), the reply channels, the values it sent on the channel `over`, and
the sends on reply channels that completed (channel, Result), oldest first. -/
structure ReaderState where
  allWs : all
  resultPool : Pool
  messages : List (GoString × Message)
  chans : List (Nat × Chan)
  over : List GoString
  sent : List (Nat × Result)
deriving DecidableEq, Repr

/-- Go `bytes.Count(b, sep)` for a non-empty `sep`: the number of non-overlapping
occurrences. `skip` is the number of bytes still covered by the last match. -/
def bytesCountFrom (sep : GoString) : GoString → Nat → Nat
  | [], _ => 0
  | _ :: rest, skip + 1 => bytesCountFrom sep rest skip
  | c :: rest, 0 =>
    if HasPrefix (c :: rest) sep then 1 + bytesCountFrom sep rest (sep.length - 1)
    else bytesCountFrom sep rest 0

/-- Go `bytes.Count(b, sep)` for a non-empty `sep`. -/
def bytesCount (b sep : GoString) : Nat := bytesCountFrom sep b 0

/-- The preallocation loop (lines 193-196): `count` Results from `NewResult(0, nil, "")`;
`none` when `NewResult` panics. -/
def prealloc : Nat → Pool → List (Option Result) → Option (List (Option Result) × Pool)
  | 0, p, arr => some (arr, p)
  | n + 1, p, arr =>
    match NewResult p 0 none [] with
    | some (result, p1) => prealloc n p1 (arr ++ [some result])
    | none => none

/-- The loop `for _, result := range arr { resultPool.Put(result) }` (lines 200-202). -/
def putAll : List (Option Result) → Pool → Pool
  | [], p => p
  | result :: rest, p => putAll rest (Pool.Put p result)

/-- One iteration of the routing loop (lines 206-213) for the element `v` of the slice
`[]*Result`. Reading `v.Id` through a nil pointer panics; the send
`m.callBack <- v` either completes, and is then recorded, or parks the reader. -/
def routeOne (v : Option Result) (s : ReaderState) : ReaderState × ReaderCtl :=
  match v with
  | none => (s, .panic)
  | some r =>
    if r.Id ≠ [] then
      match SyncMap.Load s.messages r.Id with
      | some m =>
        match m.callBack with
        | some c =>
          match (chanAt s.chans c).send r with
          | some ch =>
            ({ s with chans := chanSet s.chans c ch, sent := s.sent ++ [(c, r)] }, .again)
          | none => (s, .park)
        | none => (s, .again)
      | none => (s, .again)
    else
      (s, .again)

/-- The routing loop `for _, v := range arr` (lines 205-214): it goes on to the next element
only when the iteration before has ended normally. -/
def route : List (Option Result) → ReaderState → ReaderState × ReaderCtl
  | [], s => (s, .again)
  | v :: rest, s =>
    match routeOne v s with
    | (s1, .again) => route rest s1
    | (s1, c) => (s1, c)

/-- One iteration of the reader's loop. `unmarshal b arr` stands for
`json.Unmarshal(b, &arr)`: it returns the slice as the call leaves it, in which
a JSON `null` has become a nil pointer, and whether the call succeeded. -/
def readerIter (unmarshal : GoString → List (Option Result) → List (Option Result) × Bool)
    (groupName memberName : GoString) (f : Frame) (s : ReaderState) :
    ReaderState × ReaderCtl :=
  match f with
  | .failure err =>
    ({ s with over := s.over ++ [err], allWs := s.allWs.del groupName memberName }, .leave)
  | .payload b =>
    let count := bytesCount b (ascii "\x7b\"id\":\"")
    match prealloc count s.resultPool [] with
    | none => (s, .panic)
    | some (arr0, pool) =>
      match unmarshal b arr0 with
      | (arr, false) => ({ s with resultPool := putAll arr pool }, .leave)
      | (arr, true) => route arr { s with resultPool := pool }

/-- The reader's `for` loop over the outcomes of successive `ReadMessage` calls. Returns
the final state, how the last iteration ended (`again`: the reader waits for
the next frame), and the frames that were never read. -/
def readerLoop (unmarshal : GoString → List (Option Result) → List (Option Result) × Bool)
    (groupName memberName : GoString) :
    List Frame → ReaderState → ReaderState × ReaderCtl × List Frame
  | [], s => (s, .again, [])
  | f :: rest, s =>
    match readerIter unmarshal groupName memberName f s with
    | (s1, .again) => readerLoop unmarshal groupName memberName rest s1
    | (s1, c) => (s1, c, rest)

/-! ## Asynchronous log sink (lines 411-457) -/

/-- What the sink writes to standard output: a log line, or the notice that `i` queued
lines are thrown away. -/
inductive Out where
  | line (b : GoString)
  | notice (i : Nat)
deriving DecidableEq, Repr

/-- The channel `cache` (capacity 1000, oldest first), the batch `bs`, standard output. -/
structure SinkState where
  cache : List GoString
  bs : List GoString
  stdout : List Out
deriving DecidableEq, Repr

/-- The two cases of the sink's `select`, and a producer calling `Write`. -/
inductive SinkEvent where
  | write (p : GoString)
  | recv
  | timer
deriving DecidableEq, Repr

/-- Method `asyncConsole.Write` (lines 454-457): `c.cache <- string(p)`. With the channel
full the caller stays blocked, and the state is as before. -/
def asyncConsole_Write (p : GoString) (s : SinkState) : SinkState :=
  if s.cache.length < 1000 then { s with cache := s.cache ++ [p] } else s

/-- The loop `for j := 0; j < i; j++ { <-cache }` (lines 428-430). -/
def drain : Nat → List GoString → List GoString
  | 0, cache => cache
  | _ + 1, [] => []
  | j + 1, _ :: rest => drain j rest

/-- One iteration of the sink's loop, for the case of the `select` that fires. The case
`b := <-cache` can only fire on a non-empty channel. -/
def sinkSelect (ev : SinkEvent) (s : SinkState) : SinkState × Ctl :=
  match ev with
  | .write p => (asyncConsole_Write p s, .again)
  | .recv =>
    match s.cache with
    | [] => (s, .again)
    | b :: queued =>
      let bs := s.bs ++ [b]
      if bs.length ≥ 100 then
        let out := s.stdout ++ bs.map Out.line
        let i := queued.length
        let out1 := if i > 100 then out ++ [Out.notice i] else out
        ({ cache := drain i queued, bs := [], stdout := out1 }, .again)
      else
        ({ s with cache := queued, bs := bs }, .again)
  | .timer =>
    if s.bs.length = 0 then
      (s, .again)
    else
      ({ s with bs := [], stdout := s.stdout ++ s.bs.map Out.line }, .again)

/-- The sink's `for` loop, interleaved with the producers, over the events in order. -/
def sinkLoop : List SinkEvent → SinkState → SinkState
  | [], s => s
  | ev :: rest, s =>
    match sinkSelect ev s with
    | (s1, .again) => sinkLoop rest s1
    | (s1, .leave) => s1

/-! ## Scenario data: the wildcard call -/

/-- A member with nothing pending, known by its name, group and load. -/
def idleMember (name groupName : GoString) (waiting : Int) : member :=
  { name := name, groupName := groupName, waiting := waiting, sendNum := 0,
    messages := [], sender := [] }

/-- The workers of the wildcard scenario: `w1`, `w2`, `w3` in group `A`, waiting 5, 2, 10. -/
def wildcardWorkers : List (GoString × member) :=
  [(ascii "w1", idleMember (ascii "w1") (ascii "A") 5),
   (ascii "w2", idleMember (ascii "w2") (ascii "A") 2),
   (ascii "w3", idleMember (ascii "w3") (ascii "A") 10)]

/-- Workers that are all busy: `w1`, `w2`, `w3` in group `A`, waiting 7, 5, 5. -/
def busyWorkers : List (GoString × member) :=
  [(ascii "w1", idleMember (ascii "w1") (ascii "A") 7),
   (ascii "w2", idleMember (ascii "w2") (ascii "A") 5),
   (ascii "w3", idleMember (ascii "w3") (ascii "A") 5)]

/-- A registry holding group `A` only, its members visited in the order of `ms`. -/
def registryA (ms : List (GoString × member)) : all :=
  { data := [(ascii "A", { members := ms, name := ascii "A" })] }

/-! ## Specification vocabulary and further scenario data -/

/-- The test of the fast path of `loadLike`: the key matches and the member waits for at
most three replies. -/
def fastPick (memberName : GoString) (e : GoString × member) : Bool :=
  match' memberName e.1 && decide (e.2.waiting ≤ 3)

/-- The entry at position `i` of `l` holds `m`, its key matches, no matching entry of `l`
has a smaller load, and every matching entry before it has a larger load. -/
def FirstLeast (memberName : GoString) (l : List (GoString × member)) (i : Nat)
    (m : member) : Prop :=
  ∃ key, l[i]? = some (key, m) ∧ match' memberName key = true ∧
    ∀ j key1 m1, l[j]? = some (key1, m1) → match' memberName key1 = true →
      m.waiting ≤ m1.waiting ∧ (j < i → m.waiting < m1.waiting)

/-- What the captured variable `r` of `loadLike` stands for after the entries `seen`. -/
def ScanInv (memberName : GoString) (seen : List (GoString × member)) :
    Option member → Prop
  | none => ∀ e ∈ seen, match' memberName e.1 = false
  | some m => ∃ i, FirstLeast memberName seen i m

/-- The reply channel the specification assigns to a Result: none when its id is empty or
not pending, otherwise the channel of the pending message stored under its id. -/
def replyChannel (messages : List (GoString × Message)) (v : Result) : Option Nat :=
  if v.Id = [] then none else (SyncMap.Load messages v.Id).bind (fun m => m.callBack)

/-- The sends the specification expects for a decoded list: each Result with a reply
channel goes to that channel, in the order of the list. -/
def expectedSends (messages : List (GoString × Message)) (arr : List Result) :
    List (Nat × Result) :=
  arr.filterMap (fun v => (replyChannel messages v).map (fun c => (c, v)))

/-- The reply frame of the happy-path scenario: one Result with id "1". -/
def replyPayload : GoString :=
  ascii "[\x7b\"id\":\"1\",\"status\":0,\"data\":\"x\",\"msg\":\"\"\x7d]"

/-- The Result that `replyPayload` decodes to. -/
def replyResult : Result :=
  { Id := ascii "1", Status := 0, Data := some (ascii "\"x\""), Msg := [] }

/-- A stand-in for `json.Unmarshal` on the frames of the scenario: it decodes
`replyPayload` and fails on any other payload, leaving the slice as it was. -/
def unmarshalScenario (b : GoString) (arr : List (Option Result)) :
    List (Option Result) × Bool :=
  if b = replyPayload then ([some replyResult], true) else (arr, false)

/-- The reader of worker `w1` of group `A` while the call with id "1" is pending on
reply channel 0 and its dispatcher waits in its `select`. -/
def readerScenario : ReaderState :=
  { allWs := registryA [(ascii "w1", idleMember (ascii "w1") (ascii "A") 1)]
    resultPool := Pool.empty
    messages := [(ascii "1",
      { Id := ascii "1", Action := ascii "ping", Param := ascii "x", callBack := some 0 })]
    chans := [(0, { buf := [], receiver := true })]
    over := []
    sent := [] }

/-- A frame whose first element is `null`, followed by the reply to call "1". -/
def nullPayload : GoString :=
  ascii "[null,\x7b\"id\":\"1\",\"status\":0,\"data\":\"x\",\"msg\":\"\"\x7d]"

/-- A stand-in for `json.Unmarshal` on `nullPayload`, which it decodes without error to a
nil pointer followed by the Result with id "1"; it fails on any other payload. -/
def unmarshalNullScenario (b : GoString) (arr : List (Option Result)) :
    List (Option Result) × Bool :=
  if b = nullPayload then ([none, some replyResult], true) else (arr, false)

/-- The Result a worker sends for call "2". -/
def secondResult : Result :=
  { Id := ascii "2", Status := 0, Data := none, Msg := [] }

/-- The reader of worker `w1` while the calls "1" and "2" are pending on the reply channels
0 and 1 and both dispatchers wait in their `select`. -/
def readerTwoCalls : ReaderState :=
  { allWs := registryA [(ascii "w1", idleMember (ascii "w1") (ascii "A") 2)]
    resultPool := Pool.empty
    messages :=
      [(ascii "1",
        { Id := ascii "1", Action := ascii "ping", Param := ascii "x", callBack := some 0 }),
       (ascii "2",
        { Id := ascii "2", Action := ascii "ping", Param := ascii "y", callBack := some 1 })]
    chans := [(0, { buf := [], receiver := true }), (1, { buf := [], receiver := true })]
    over := []
    sent := [] }

/-- The Result of a completed call, with id "7". -/
def pooledResult : Result :=
  { Id := ascii "7", Status := 0, Data := some (ascii "1"), Msg := [] }

/-- The invariant of the writer's loop: every frame written has between 1 and 100 messages
and the batch has fewer than 100. -/
def WriterInv (s : WriterState) : Prop :=
  (∀ f ∈ s.socket, 1 ≤ f.length ∧ f.length ≤ 100) ∧ s.w.length < 100

/-- A decoded frame with a reply to the pending call "1", a Result without id and a
Result for the call "9", which is not pending. -/
def mixedResults : List Result :=
  [replyResult,
   { Id := [], Status := 0, Data := none, Msg := ascii "no id" },
   { Id := ascii "9", Status := 0, Data := none, Msg := ascii "late" }]

/-- A message of the batching scenario. -/
def pingMessage : Message :=
  { Id := ascii "1", Action := ascii "ping", Param := [], callBack := some 0 }

/-- The log storm scenario: 100 lines "a" and then one line "x" are written, and the sink
takes 100 lines from the channel. -/
def sinkScenario : List SinkEvent :=
  List.replicate 100 (SinkEvent.write (ascii "a")) ++ [SinkEvent.write (ascii "x")] ++
    List.replicate 100 SinkEvent.recv

/-- The sink as the goroutine starts it. -/
def SinkState.init : SinkState := { cache := [], bs := [], stdout := [] }

set_option maxRecDepth 100000

/-! ## Pattern matcher -/

/-- In the branch of `match` that slices `rule[:len(rule)-2]` and in the one that slices
`rule[2:]`, the rule has at least two bytes: both slice expressions are in range. -/
theorem match_slices_in_range (rule : GoString) (hne : rule ≠ ascii "*")
    (h : HasSuffix rule (ascii "*") = true ∨ HasPrefix rule (ascii "*") = true) :
    2 ≤ rule.length := by
  match rule, hne, h with
  | [], _, h => simp [HasSuffix, HasPrefix, ascii] at h
  | [c], hne, h =>
    exfalso
    apply hne
    rcases h with h | h <;> simpa [HasSuffix, HasPrefix, ascii] using h
  | _ :: _ :: _, _, _ => simp

/-- What the trailing-star branch of `match` computes: the text is compared with the rule
minus its last two bytes. -/
theorem match_trailing_star (rule text : GoString) (hne : rule ≠ ascii "*")
    (h : HasSuffix rule (ascii "*") = true) :
    match' rule text = HasPrefix text (rule.take (rule.length - 2)) := by
  simp [match', hne, h]

/-- What the leading-star branch of `match` computes: the text is compared with the rule
minus its first two bytes. -/
theorem match_leading_star (rule text : GoString)
    (hs : HasSuffix rule (ascii "*") = false) (h : HasPrefix rule (ascii "*") = true) :
    match' rule text = HasSuffix text (rule.drop 2) := by
  have hne : rule ≠ ascii "*" := by
    rintro rfl
    revert hs
    decide
  simp [match', hne, hs, h]

/-- C1, the code at the failing input. The rule "ab*" ends with a star and is not "*"; the
text "ax" does not start with "ab", the rule minus its last character; yet
`match` answers true, because it compares with "a", the rule minus its last
two bytes. -/
theorem match_ab_star_accepts_ax :
    ascii "ab*" ≠ ascii "*" ∧ HasSuffix (ascii "ab*") (ascii "*") = true ∧
    HasPrefix (ascii "ax") (ascii "ab") = false ∧
    match' (ascii "ab*") (ascii "ax") = true := by
  decide

/-- C2, the code at the failing input. The rule "*ab" begins with a star and does not end
with one; the text "xb" does not end with "ab", the rule minus its first
character; yet `match` answers true, because it compares with "b", the rule
minus its first two bytes. -/
theorem match_star_ab_accepts_xb :
    HasPrefix (ascii "*ab") (ascii "*") = true ∧ HasSuffix (ascii "*ab") (ascii "*") = false ∧
    HasSuffix (ascii "xb") (ascii "ab") = false ∧
    match' (ascii "*ab") (ascii "xb") = true := by
  decide

/-! ## Wildcard lookup -/

/-- With a matching member of load at most 3 ahead, the scan ends at the first such
member, whatever it has kept so far. -/
theorem Range_loadLikeVisit_fast (memberName : GoString) (es : List (GoString × member))
    (r : Option member) (h : ∃ e ∈ es, fastPick memberName e = true) :
    SyncMap.Range (loadLikeVisit memberName) es r =
      (es.find? (fastPick memberName)).map (fun e => e.2) := by
  induction es generalizing r with
  | nil => simp at h
  | cons e rest ih =>
    obtain ⟨key, m⟩ := e
    by_cases hm : match' memberName key = true
    · by_cases hw : m.waiting ≤ 3
      · simp [SyncMap.Range, loadLikeVisit, fastPick, hm, hw]
      · have hrest : ∃ e ∈ rest, fastPick memberName e = true := by
          obtain ⟨e, he, hp⟩ := h
          rcases List.mem_cons.mp he with rfl | he
          · simp [fastPick, hw] at hp
          · exact ⟨e, he, hp⟩
        simp only [SyncMap.Range, loadLikeVisit, hm, hw, Bool.not_true, Bool.false_eq_true,
          if_false]
        rw [ih _ hrest]
        simp [List.find?_cons, fastPick, hw]
    · have hrest : ∃ e ∈ rest, fastPick memberName e = true := by
        obtain ⟨e, he, hp⟩ := h
        rcases List.mem_cons.mp he with rfl | he
        · simp [fastPick, hm] at hp
        · exact ⟨e, he, hp⟩
      have hm' : match' memberName key = false := by simpa using hm
      simp only [SyncMap.Range, loadLikeVisit, hm', Bool.not_false, if_true]
      rw [ih _ hrest]
      simp [List.find?_cons, fastPick, hm']

/-- C3. Whenever the group holds a member whose key `match` accepts and whose load is at
most 3, `loadLike` returns the first such member in iteration order, and that
member matches and has load at most 3. In particular, for the workers `w1`,
`w2`, `w3` with loads 5, 2, 10 and the pattern "w*", every iteration order
selects `w2`. -/
theorem loadLike_fast_path :
    (∀ (a : all) (groupName memberName : GoString) (g : group),
      SyncMap.Load a.data groupName = some g →
      (∃ e ∈ g.members, match' memberName e.1 = true ∧ e.2.waiting ≤ 3) →
      ∃ key m, g.members.find? (fastPick memberName) = some (key, m) ∧
        a.loadLike groupName memberName = some m ∧
        match' memberName key = true ∧ m.waiting ≤ 3) ∧
    (∀ ms : List (GoString × member), ms.Perm wildcardWorkers →
      (registryA ms).loadLike (ascii "A") (ascii "w*") =
        some (idleMember (ascii "w2") (ascii "A") 2)) := by
  have general : ∀ (a : all) (groupName memberName : GoString) (g : group),
      SyncMap.Load a.data groupName = some g →
      (∃ e ∈ g.members, match' memberName e.1 = true ∧ e.2.waiting ≤ 3) →
      ∃ key m, g.members.find? (fastPick memberName) = some (key, m) ∧
        a.loadLike groupName memberName = some m ∧
        match' memberName key = true ∧ m.waiting ≤ 3 := by
    intro a groupName memberName g hg h
    have h' : ∃ e ∈ g.members, fastPick memberName e = true := by
      obtain ⟨e, he, hm, hw⟩ := h
      exact ⟨e, he, by simp [fastPick, hm, hw]⟩
    have hrange := Range_loadLikeVisit_fast memberName g.members none h'
    cases hf : g.members.find? (fastPick memberName) with
    | none =>
      obtain ⟨e, he, hp⟩ := h'
      have := List.find?_eq_none.mp hf e he
      exact absurd hp this
    | some e =>
      obtain ⟨key, m⟩ := e
      have hp : fastPick memberName (key, m) = true := List.find?_some hf
      simp only [fastPick, Bool.and_eq_true, decide_eq_true_eq] at hp
      refine ⟨key, m, rfl, ?_, hp.1, hp.2⟩
      simp [all.loadLike, hg, hrange, hf]
  refine ⟨general, ?_⟩
  intro ms hperm
  have hmem : ∀ e, e ∈ ms ↔ e ∈ wildcardWorkers := fun e => hperm.mem_iff
  have hload : SyncMap.Load (registryA ms).data (ascii "A") =
      some { members := ms, name := ascii "A" } := by
    simp [SyncMap.Load, registryA]
  obtain ⟨key, m, hf, hres, -, hw⟩ := general (registryA ms) (ascii "A") (ascii "w*") _ hload
    ⟨(ascii "w2", idleMember (ascii "w2") (ascii "A") 2),
      (hmem _).mpr (by simp [wildcardWorkers]), by decide, by decide⟩
  have hin : (key, m) ∈ wildcardWorkers := (hmem _).mp (List.mem_of_find?_eq_some hf)
  rw [hres]
  simp only [wildcardWorkers, List.mem_cons, Prod.mk.injEq, List.mem_singleton,
    List.not_mem_nil, or_false] at hin
  rcases hin with ⟨-, rfl⟩ | ⟨-, rfl⟩ | ⟨-, rfl⟩
  · exact absurd hw (by decide)
  · rfl
  · exact absurd hw (by decide)

/-- The fast path on the wildcard scenario: in the order `w1`, `w2`, `w3` and in the reverse
order, the pattern "w*" selects `w2`. -/
theorem loadLike_fast_path_witness :
    (∃ key m, wildcardWorkers.find? (fastPick (ascii "w*")) = some (key, m) ∧
      (registryA wildcardWorkers).loadLike (ascii "A") (ascii "w*") = some m ∧
      match' (ascii "w*") key = true ∧ m.waiting ≤ 3) ∧
    (registryA wildcardWorkers.reverse).loadLike (ascii "A") (ascii "w*") =
      some (idleMember (ascii "w2") (ascii "A") 2) :=
  ⟨loadLike_fast_path.1 (registryA wildcardWorkers) (ascii "A") (ascii "w*")
      { members := wildcardWorkers, name := ascii "A" } (by decide)
      ⟨(ascii "w2", idleMember (ascii "w2") (ascii "A") 2), by decide, by decide, by decide⟩,
    loadLike_fast_path.2 wildcardWorkers.reverse (List.reverse_perm _)⟩

theorem getElem?_snoc_cases {α : Type} (l : List α) (e x : α) (j : Nat)
    (h : (l ++ [e])[j]? = some x) :
    (j < l.length ∧ l[j]? = some x) ∨ (j = l.length ∧ x = e) := by
  by_cases hj : j < l.length
  · left
    rw [List.getElem?_append_left hj] at h
    exact ⟨hj, h⟩
  · right
    have hle : l.length ≤ j := Nat.le_of_not_lt hj
    rw [List.getElem?_append_right hle] at h
    by_cases h0 : j - l.length = 0
    · rw [h0] at h
      simp at h
      exact ⟨by omega, h.symm⟩
    · obtain ⟨k, hk⟩ := Nat.exists_eq_succ_of_ne_zero h0
      rw [hk] at h
      simp at h

theorem ScanInv_step (memberName : GoString) (seen : List (GoString × member))
    (key : GoString) (m : member) (r : Option member)
    (hw : match' memberName key = true → ¬ m.waiting ≤ 3)
    (hinv : ScanInv memberName seen r) :
    (loadLikeVisit memberName key m r).2 = true ∧
    ScanInv memberName (seen ++ [(key, m)]) (loadLikeVisit memberName key m r).1 := by
  by_cases hm : match' memberName key = true
  · have hw3 : ¬ m.waiting ≤ 3 := hw hm
    have hlast : (seen ++ [(key, m)])[seen.length]? = some (key, m) := by simp
    cases r with
    | none =>
      simp only [loadLikeVisit, hm, hw3, Bool.not_true, Bool.false_eq_true, if_false,
        lt_self_iff_false, true_and]
      refine ⟨seen.length, key, hlast, hm, ?_⟩
      intro j key1 m1 hj hm1
      rcases getElem?_snoc_cases _ _ _ _ hj with ⟨-, hj'⟩ | ⟨rfl, hx⟩
      · have := hinv (key1, m1) (List.getElem?_mem hj')
        simp [hm1] at this
      · cases hx
        simp
    | some m0 =>
      obtain ⟨i, key0, hi, hm0, hall⟩ := hinv
      have hilt : i < seen.length := by
        by_contra hcon
        rw [List.getElem?_eq_none (Nat.le_of_not_lt hcon)] at hi
        cases hi
      by_cases hlt : m.waiting < m0.waiting
      · simp only [loadLikeVisit, hm, hw3, hlt, Bool.not_true, Bool.false_eq_true, if_false,
          if_true, true_and]
        refine ⟨seen.length, key, hlast, hm, ?_⟩
        intro j key1 m1 hj hm1
        rcases getElem?_snoc_cases _ _ _ _ hj with ⟨-, hj'⟩ | ⟨rfl, hx⟩
        · have := (hall j key1 m1 hj' hm1).1
          exact ⟨by omega, fun _ => by omega⟩
        · cases hx
          simp
      · simp only [loadLikeVisit, hm, hw3, hlt, Bool.not_true, Bool.false_eq_true, if_false,
          true_and]
        refine ⟨i, key0, ?_, hm0, ?_⟩
        · rw [List.getElem?_append_left hilt]
          exact hi
        · intro j key1 m1 hj hm1
          rcases getElem?_snoc_cases _ _ _ _ hj with ⟨-, hj'⟩ | ⟨rfl, hx⟩
          · exact hall j key1 m1 hj' hm1
          · cases hx
            exact ⟨by omega, fun h => by omega⟩
  · have hm' : match' memberName key = false := by simpa using hm
    simp only [loadLikeVisit, hm', Bool.not_false, if_true, true_and]
    cases r with
    | none =>
      intro e he
      rcases List.mem_append.mp he with he | he
      · exact hinv e he
      · simp only [List.mem_singleton] at he
        subst he
        exact hm'
    | some m0 =>
      obtain ⟨i, key0, hi, hm0, hall⟩ := hinv
      have hilt : i < seen.length := by
        by_contra hcon
        rw [List.getElem?_eq_none (Nat.le_of_not_lt hcon)] at hi
        cases hi
      refine ⟨i, key0, ?_, hm0, ?_⟩
      · rw [List.getElem?_append_left hilt]
        exact hi
      · intro j key1 m1 hj hm1
        rcases getElem?_snoc_cases _ _ _ _ hj with ⟨-, hj'⟩ | ⟨rfl, hx⟩
        · exact hall j key1 m1 hj' hm1
        · cases hx
          rw [hm'] at hm1
          cases hm1

theorem ScanInv_Range (memberName : GoString) (es seen : List (GoString × member))
    (r : Option member)
    (hw : ∀ e ∈ es, match' memberName e.1 = true → ¬ e.2.waiting ≤ 3)
    (hinv : ScanInv memberName seen r) :
    ScanInv memberName (seen ++ es) (SyncMap.Range (loadLikeVisit memberName) es r) := by
  induction es generalizing seen r with
  | nil => simpa [SyncMap.Range] using hinv
  | cons e rest ih =>
    obtain ⟨key, m⟩ := e
    obtain ⟨hgo, hstep⟩ := ScanInv_step memberName seen key m r
      (hw (key, m) (List.mem_cons_self _ _)) hinv
    have hrest := ih (seen ++ [(key, m)]) (loadLikeVisit memberName key m r).1
      (fun e he => hw e (List.mem_cons_of_mem _ he)) hstep
    have hsplit : loadLikeVisit memberName key m r =
        ((loadLikeVisit memberName key m r).1, true) := by
      rw [← hgo]
    simp only [SyncMap.Range]
    rw [hsplit]
    simpa using hrest

theorem Range_loadLikeVisit_none (memberName : GoString) (es : List (GoString × member))
    (r : Option member) :
    SyncMap.Range (loadLikeVisit memberName) es r = none ↔
      r = none ∧ ∀ e ∈ es, match' memberName e.1 = false := by
  induction es generalizing r with
  | nil => simp [SyncMap.Range]
  | cons e rest ih =>
    obtain ⟨key, m⟩ := e
    by_cases hm : match' memberName key = true
    · by_cases hw : m.waiting ≤ 3
      · simp [SyncMap.Range, loadLikeVisit, hm, hw]
      · simp only [SyncMap.Range, loadLikeVisit, hm, hw, Bool.not_true, Bool.false_eq_true,
          if_false]
        rw [ih]
        simp [hm]
    · have hm' : match' memberName key = false := by simpa using hm
      simp only [SyncMap.Range, loadLikeVisit, hm', Bool.not_false, if_true]
      rw [ih]
      simp [hm']

/-- C4. `loadLike` returns nil exactly when the group is absent or none of its keys is
accepted by `match`. When the group is present, some key matches and no
matching member has load at most 3, it returns the member at a position `i`
that matches, whose load no matching member undercuts, and that every matching
member before position `i` exceeds: the least load, first seen among ties. -/
theorem loadLike_least_waiting (a : all) (groupName memberName : GoString) :
    (a.loadLike groupName memberName = none ↔
      (SyncMap.Load a.data groupName = none ∨
        ∃ g, SyncMap.Load a.data groupName = some g ∧
          ∀ e ∈ g.members, match' memberName e.1 = false)) ∧
    (∀ g : group, SyncMap.Load a.data groupName = some g →
      (∀ e ∈ g.members, match' memberName e.1 = true → ¬ e.2.waiting ≤ 3) →
      (∃ e ∈ g.members, match' memberName e.1 = true) →
      ∃ (i : Nat) (key : GoString) (m : member),
        g.members[i]? = some (key, m) ∧ match' memberName key = true ∧
        a.loadLike groupName memberName = some m ∧
        ∀ (j : Nat) (key1 : GoString) (m1 : member),
          g.members[j]? = some (key1, m1) → match' memberName key1 = true →
          m.waiting ≤ m1.waiting ∧ (j < i → m.waiting < m1.waiting)) := by
  constructor
  · cases hg : SyncMap.Load a.data groupName with
    | none => simp [all.loadLike, hg]
    | some g =>
      simp only [all.loadLike, hg, Range_loadLikeVisit_none, true_and]
      constructor
      · intro h
        exact Or.inr ⟨g, rfl, h⟩
      · rintro (h | ⟨g1, hg1, h⟩)
        · cases h
        · cases hg1
          exact h
  · intro g hg hw hex
    have hinv := ScanInv_Range memberName g.members [] none hw (by simp [ScanInv])
    simp only [List.nil_append] at hinv
    cases hr : SyncMap.Range (loadLikeVisit memberName) g.members none with
    | none =>
      rw [hr] at hinv
      obtain ⟨e, he, hm⟩ := hex
      have := hinv e he
      rw [hm] at this
      cases this
    | some m =>
      rw [hr] at hinv
      obtain ⟨i, key, hi, hm, hall⟩ := hinv
      exact ⟨i, key, m, hi, hm, by simp [all.loadLike, hg, hr], hall⟩

/-- The slow path on three busy workers with loads 7, 5, 5: the pattern "w*" selects `w2`,
the first of the two that wait for 5 replies. -/
theorem loadLike_least_waiting_witness :
    (registryA busyWorkers).loadLike (ascii "A") (ascii "w*") =
      some (idleMember (ascii "w2") (ascii "A") 5) ∧
    ∃ (i : Nat) (key : GoString) (m : member),
      busyWorkers[i]? = some (key, m) ∧ match' (ascii "w*") key = true ∧
      (registryA busyWorkers).loadLike (ascii "A") (ascii "w*") = some m ∧
      ∀ (j : Nat) (key1 : GoString) (m1 : member), busyWorkers[j]? = some (key1, m1) →
        match' (ascii "w*") key1 = true →
        m.waiting ≤ m1.waiting ∧ (j < i → m.waiting < m1.waiting) :=
  ⟨by decide,
    (loadLike_least_waiting (registryA busyWorkers) (ascii "A") (ascii "w*")).2
      { members := busyWorkers, name := ascii "A" } (by decide) (by decide)
      ⟨(ascii "w1", idleMember (ascii "w1") (ascii "A") 7), by decide, by decide⟩⟩

/-! ## Reader: routing by id -/

theorem routeOne_again (r : Result) (s s1 : ReaderState)
    (h : routeOne (some r) s = (s1, ReaderCtl.again)) :
    s1.messages = s.messages ∧ s1.sent = s.sent ++ expectedSends s.messages [r] := by
  unfold routeOne at h
  unfold expectedSends replyChannel
  by_cases hid : r.Id = []
  · simp only [hid, ne_eq, not_true_eq_false, if_false, Prod.mk.injEq, and_true] at h
    subst h
    simp [hid]
  · simp only [ne_eq, hid, not_false_eq_true, if_true] at h
    cases hl : SyncMap.Load s.messages r.Id with
    | none =>
      simp only [hl, Prod.mk.injEq, and_true] at h
      subst h
      simp [hid, hl]
    | some m =>
      cases hc : m.callBack with
      | none =>
        simp only [hl, hc, Prod.mk.injEq, and_true] at h
        subst h
        simp [hid, hl, hc]
      | some c =>
        cases hs : (chanAt s.chans c).send r with
        | none => simp [hl, hc, hs] at h
        | some ch =>
          simp only [hl, hc, hs, Prod.mk.injEq, and_true] at h
          subst h
          simp [hid, hl, hc]

theorem routeOne_messages (v : Option Result) (s : ReaderState) :
    (routeOne v s).1.messages = s.messages := by
  cases v with
  | none => rfl
  | some r =>
    unfold routeOne
    by_cases hid : r.Id = []
    · simp [hid]
    · cases hl : SyncMap.Load s.messages r.Id with
      | none => simp [hid, hl]
      | some m =>
        cases hc : m.callBack with
        | none => simp [hid, hl, hc]
        | some c =>
          cases hs : (chanAt s.chans c).send r with
          | none => simp [hid, hl, hc, hs]
          | some ch => simp [hid, hl, hc, hs]

/-- Routing never writes to the pending map. -/
theorem route_messages (arr : List (Option Result)) (s : ReaderState) :
    (route arr s).1.messages = s.messages := by
  induction arr generalizing s with
  | nil => rfl
  | cons v rest ih =>
    have hm := routeOne_messages v s
    rcases hr : routeOne v s with ⟨s1, c⟩
    rw [hr] at hm
    simp only at hm
    cases c with
    | again =>
      simp only [route, hr]
      rw [ih, hm]
    | leave => simpa [route, hr] using hm
    | panic => simpa [route, hr] using hm
    | park => simpa [route, hr] using hm

/-- When the routing loop runs to its end, the slice held no nil pointer and the sends that
completed are exactly those the specification expects, in order: each Result
with a non-empty, pending id went to the channel of the message stored under
that id, and the others went nowhere. -/
theorem route_completed (arr : List (Option Result)) (s : ReaderState)
    (h : (route arr s).2 = ReaderCtl.again) :
    ∃ rs : List Result, arr = rs.map some ∧
      (route arr s).1.sent = s.sent ++ expectedSends s.messages rs := by
  induction arr generalizing s with
  | nil => exact ⟨[], rfl, by simp [route, expectedSends]⟩
  | cons v rest ih =>
    cases v with
    | none => simp [route, routeOne] at h
    | some r =>
      rcases hr : routeOne (some r) s with ⟨s1, c⟩
      cases c with
      | again =>
        simp only [route, hr] at h ⊢
        obtain ⟨rs, hrs, hsent⟩ := ih s1 h
        obtain ⟨hm, hs⟩ := routeOne_again r s s1 hr
        refine ⟨r :: rs, by simp [hrs], ?_⟩
        rw [hsent, hm, hs, List.append_assoc]
        simp [expectedSends, List.filterMap_cons]
        cases replyChannel s.messages r <;> simp
      | leave => simp [route, hr] at h
      | panic => simp [route, hr] at h
      | park => simp [route, hr] at h

/-- C5, the code at the failing input. While call "1" is pending, a frame that decodes to
the reply to "1", a Result without id and a Result for an unknown id is routed
as the claim says: one send, to channel 0. But the frame
`[null, reply to "1"]` decodes without error to a slice whose first element
is a nil pointer: reading its id panics, the reply to "1" is never sent and
the frame that follows is never read. And with calls "1" and "2" pending, three
copies of the reply to "1" followed by the reply to "2" leave the reader
parked in the third send, on a full channel nobody receives from: the reply
to "2" is never sent. -/
theorem route_stops_before_later_results :
    route (mixedResults.map some) readerScenario =
      ({ readerScenario with
          chans := [(0, { buf := [], receiver := false })]
          sent := [(0, replyResult)] }, ReaderCtl.again) ∧
    route [none, some replyResult] readerScenario = (readerScenario, ReaderCtl.panic) ∧
    readerLoop unmarshalNullScenario (ascii "A") (ascii "w1")
        [Frame.payload nullPayload, Frame.payload replyPayload] readerScenario =
      (readerScenario, ReaderCtl.panic, [Frame.payload replyPayload]) ∧
    route [some replyResult, some replyResult, some replyResult, some secondResult]
        readerTwoCalls =
      ({ readerTwoCalls with
          chans := [(0, { buf := [replyResult], receiver := false }),
            (1, { buf := [], receiver := true })]
          sent := [(0, replyResult), (0, replyResult)] }, ReaderCtl.park) := by
  decide

theorem find?_map_replace {β : Type} (k : GoString) (v : β) (l : List (GoString × β))
    (h : l.any (fun e => e.1 == k) = true) :
    (l.map (fun e => if e.1 == k then (k, v) else e)).find? (fun e => e.1 == k) =
      some (k, v) := by
  induction l with
  | nil => simp at h
  | cons e rest ih =>
    by_cases he : (e.1 == k) = true
    · rw [List.map_cons, if_pos he, List.find?_cons]
      simp
    · rw [List.any_cons] at h
      have hrest : rest.any (fun e => e.1 == k) = true := by
        rcases Bool.or_eq_true_iff.mp h with h | h
        · exact absurd h he
        · exact h
      rw [List.map_cons, if_neg he, List.find?_cons]
      have he' : (e.1 == k) = false := by simpa using he
      rw [he']
      exact ih hrest

theorem find?_append_new {β : Type} (k : GoString) (v : β) (l : List (GoString × β))
    (h : ¬ l.any (fun e => e.1 == k) = true) :
    (l ++ [(k, v)]).find? (fun e => e.1 == k) = some (k, v) := by
  induction l with
  | nil => simp
  | cons e rest ih =>
    rw [List.any_cons] at h
    have he : (e.1 == k) = false := by
      cases hb : (e.1 == k)
      · rfl
      · rw [hb] at h
        simp at h
    have hrest : ¬ rest.any (fun e => e.1 == k) = true := by
      intro hr
      apply h
      rw [hr]
      simp
    rw [List.cons_append, List.find?_cons, he]
    exact ih hrest

theorem Load_Store_self {β : Type} (l : List (GoString × β)) (k : GoString) (v : β) :
    SyncMap.Load (SyncMap.Store l k v) k = some v := by
  unfold SyncMap.Store SyncMap.Load
  by_cases h : l.any (fun e => e.1 == k) = true
  · rw [if_pos h, find?_map_replace k v l h]
    rfl
  · rw [if_neg h, find?_append_new k v l h]
    rfl

/-- A message submitted with `send` is pending under its id, whether or not the hand-over to
the writer has completed, so a Result carrying that id is routed to the
channel of that message. -/
theorem replyChannel_after_send (m : member) (message : Message) (v : Result)
    (hid : v.Id = message.Id) (hne : message.Id ≠ []) :
    replyChannel (m.send message).1.messages v = message.callBack := by
  have hm : (m.send message).1.messages = SyncMap.Store m.messages message.Id message := by
    unfold member.send
    simp only
    split <;> rfl
  rw [hm]
  simp [replyChannel, hid, hne, Load_Store_self]

/-! ## Reader: a frame that does not decode -/

/-- When `json.Unmarshal` fails on a frame, the reader's loop ends there: every later frame
stays unread, nothing is sent, and the registry is untouched, so the member is
still registered. -/
theorem readerLoop_ends_on_decode_failure
    (unmarshal : GoString → List (Option Result) → List (Option Result) × Bool)
    (groupName memberName : GoString)
    (b : GoString) (rest : List Frame) (s : ReaderState)
    (arr0 : List (Option Result)) (pool : Pool)
    (hp : prealloc (bytesCount b (ascii "\x7b\"id\":\"")) s.resultPool [] = some (arr0, pool))
    (h : (unmarshal b arr0).2 = false) :
    (readerLoop unmarshal groupName memberName (Frame.payload b :: rest) s).2 =
      (ReaderCtl.leave, rest) ∧
    (readerLoop unmarshal groupName memberName (Frame.payload b :: rest) s).1.sent = s.sent ∧
    (readerLoop unmarshal groupName memberName (Frame.payload b :: rest) s).1.allWs = s.allWs := by
  simp only [readerLoop, readerIter, hp]
  rcases hu : unmarshal b arr0 with ⟨arr, ok⟩
  rw [hu] at h
  simp only at h
  subst h
  simp

/-- C6, the code at the failing input. Worker `w1` sends the frame "oops", which does not
decode, and then the valid reply to the pending call "1". Alone, the valid
frame is routed to reply channel 0 and the reader asks for the next frame.
After "oops", the reader has left its loop: the valid frame is never read,
nothing is sent, and `w1` is still in the registry. -/
theorem reader_stops_after_malformed_frame :
    readerLoop unmarshalScenario (ascii "A") (ascii "w1")
        [Frame.payload replyPayload] readerScenario =
      ({ readerScenario with
          chans := [(0, { buf := [], receiver := false })]
          sent := [(0, replyResult)] }, ReaderCtl.again, []) ∧
    readerLoop unmarshalScenario (ascii "A") (ascii "w1")
        [Frame.payload (ascii "oops"), Frame.payload replyPayload] readerScenario =
      (readerScenario, ReaderCtl.leave, [Frame.payload replyPayload]) ∧
    readerScenario.allWs.load (ascii "A") (ascii "w1") =
      some (idleMember (ascii "w1") (ascii "A") 1) := by
  decide

/-! ## Result pool -/

/-- What `NewResult` assigns and what it leaves: `Status`, `Data` and `Msg` are the
arguments, `Id` is whatever the Result taken from the pool carried. -/
theorem NewResult_fields (resultPool rest : Pool) (r0 : Result) (Status : Int)
    (Data : Option GoString) (Msg : GoString) (h : Pool.Get resultPool = (some r0, rest)) :
    NewResult resultPool Status Data Msg =
      some ({ Id := r0.Id, Status := Status, Data := Data, Msg := Msg }, rest) := by
  simp [NewResult, h]

/-- C7, the code at the failing input. A call completes with the worker's Result of id "7",
which `doExec` puts back into the pool; the next `NewResult(1, nil, msg)`
returns a Result whose id is still "7", and so do the bodies of the
unknown-member and timeout responses built from it. -/
theorem NewResult_keeps_pooled_id :
    (doExec_reply Pool.empty pooledResult).2 = Pool.empty.Put (some pooledResult) ∧
    NewResult (Pool.empty.Put (some pooledResult)) 1 none (ascii "timeout") =
      some ({ Id := ascii "7", Status := 1, Data := none, Msg := ascii "timeout" },
        Pool.empty) ∧
    (doExec_noMember (Pool.empty.Put (some pooledResult))).map (fun x => x.1.body.Id) =
      some (ascii "7") ∧
    (doExec_timeout (Pool.empty.Put (some pooledResult))).map (fun x => x.1.body.Id) =
      some (ascii "7") := by
  decide

/-! ## Writer -/

theorem writerSelect_again (ev : WriterEvent) (s : WriterState) :
    (writerSelect ev s).2 = Ctl.again := by
  cases ev with
  | timer => simp only [writerSelect]; split_ifs <;> rfl
  | message m => simp only [writerSelect]; split_ifs <;> rfl
  | over e => rfl

theorem writerLoop_cons (ev : WriterEvent) (evs : List WriterEvent) (s : WriterState) :
    writerLoop (ev :: evs) s = writerLoop evs (writerSelect ev s).1 := by
  have h := writerSelect_again ev s
  rcases hs : writerSelect ev s with ⟨s1, c⟩
  rw [hs] at h
  simp only at h
  subst h
  simp [writerLoop, hs]

theorem writerLoop_append (evs evs1 : List WriterEvent) (s : WriterState) :
    writerLoop (evs ++ evs1) s = writerLoop evs1 (writerLoop evs s).1 := by
  induction evs generalizing s with
  | nil => simp [writerLoop]
  | cons ev rest ih => rw [List.cons_append, writerLoop_cons, writerLoop_cons, ih]

theorem WriterInv_select (ev : WriterEvent) (s : WriterState) (h : WriterInv s) :
    WriterInv (writerSelect ev s).1 := by
  obtain ⟨hs, hw⟩ := h
  cases ev with
  | timer =>
    simp only [writerSelect]
    split_ifs with h0
    · exact ⟨hs, hw⟩
    · refine ⟨?_, by simp⟩
      intro f hf
      rcases List.mem_append.mp hf with hf | hf
      · exact hs f hf
      · simp only [List.mem_singleton] at hf
        subst hf
        omega
  | message m =>
    simp only [writerSelect]
    split_ifs with hfull
    · refine ⟨?_, by simp⟩
      intro f hf
      rcases List.mem_append.mp hf with hf | hf
      · exact hs f hf
      · simp only [List.mem_singleton] at hf
        subst hf
        simp only [List.length_append, List.length_singleton]
        omega
    · refine ⟨hs, ?_⟩
      simp only [List.length_append, List.length_singleton, ge_iff_le, not_le] at hfull ⊢
      exact hfull
  | over e => exact ⟨hs, hw⟩

theorem WriterInv_loop (evs : List WriterEvent) (s : WriterState) (h : WriterInv s) :
    WriterInv (writerLoop evs s).1 := by
  induction evs generalizing s with
  | nil => simpa [writerLoop] using h
  | cons ev rest ih =>
    rw [writerLoop_cons]
    exact ih _ (WriterInv_select ev s h)

/-- C8. Started with an empty batch and driven by any sequence of events, the writer has
written only frames of 1 to 100 messages and holds fewer than 100 messages;
and when it holds 99, the next arrival writes the 100 messages at once as one
frame and leaves the batch empty. -/
theorem writer_batching_bound (evs : List WriterEvent) :
    (∀ f ∈ (writerLoop evs WriterState.init).1.socket, 1 ≤ f.length ∧ f.length ≤ 100) ∧
    (writerLoop evs WriterState.init).1.w.length < 100 ∧
    (∀ m : Message, (writerLoop evs WriterState.init).1.w.length = 99 →
      (writerLoop (evs ++ [WriterEvent.message m]) WriterState.init).1 =
        { w := []
          socket := (writerLoop evs WriterState.init).1.socket ++
            [(writerLoop evs WriterState.init).1.w ++ [m]] } ∧
      ((writerLoop evs WriterState.init).1.w ++ [m]).length = 100) := by
  have hinv : WriterInv (writerLoop evs WriterState.init).1 :=
    WriterInv_loop evs _ ⟨by simp [WriterState.init], by simp [WriterState.init]⟩
  refine ⟨hinv.1, hinv.2, ?_⟩
  intro m h99
  rw [writerLoop_append, writerLoop_cons]
  simp [writerLoop, writerSelect, h99]

/-- The batch-full flush on 99 arrivals followed by one more: the hundredth arrival writes
one frame of 100 messages and leaves the batch empty. -/
theorem writer_batching_bound_witness :
    (writerLoop (List.replicate 99 (WriterEvent.message pingMessage) ++
        [WriterEvent.message pingMessage]) WriterState.init).1 =
      { w := []
        socket :=
          (writerLoop (List.replicate 99 (WriterEvent.message pingMessage))
            WriterState.init).1.socket ++
          [(writerLoop (List.replicate 99 (WriterEvent.message pingMessage))
            WriterState.init).1.w ++ [pingMessage]] } ∧
    ((writerLoop (List.replicate 99 (WriterEvent.message pingMessage))
      WriterState.init).1.w ++ [pingMessage]).length = 100 :=
  (writer_batching_bound (List.replicate 99 (WriterEvent.message pingMessage))).2.2
    pingMessage (by decide)

/-- The shutdown case of the writer's `select` changes nothing and does not end the loop:
the writer goes on with the events that follow as if no signal had come. -/
theorem writerLoop_over (e : GoString) (evs : List WriterEvent) (s : WriterState) :
    writerLoop (WriterEvent.over e :: evs) s = writerLoop evs s := by
  rw [writerLoop_cons]
  rfl

/-- C9, the code at the failing input. A writer with an empty batch receives the shutdown
signal, then a message arrives on `sender`, then the idle timer fires: the
writer has taken every event (none is left over), among them the message,
and has written that message to the socket as a frame. -/
theorem writer_runs_on_after_shutdown :
    writerLoop [WriterEvent.over (ascii "EOF"), WriterEvent.message pingMessage,
        WriterEvent.timer] WriterState.init =
      ({ w := [], socket := [[pingMessage]] }, []) := by
  decide

/-! ## Log sink -/

/-- What the full-batch flush does with the queue: with the batch at 99 lines, taking `b`
writes the 100 lines, writes the notice only when more than 100 lines are
queued, and empties the channel whatever the number of queued lines. -/
theorem sinkSelect_full_batch (b : GoString) (queued bs : List GoString) (out : List Out)
    (h : bs.length = 99) :
    (sinkSelect SinkEvent.recv { cache := b :: queued, bs := bs, stdout := out }).1 =
      { cache := []
        bs := []
        stdout := if queued.length > 100
          then out ++ (bs ++ [b]).map Out.line ++ [Out.notice queued.length]
          else out ++ (bs ++ [b]).map Out.line } := by
  have hdrain : ∀ (l : List GoString) (n : Nat), l.length ≤ n → drain n l = [] := by
    intro l
    induction l with
    | nil => intro n _; cases n <;> rfl
    | cons x rest ih =>
      intro n hn
      cases n with
      | zero => simp at hn
      | succ k => exact ih k (by simpa using hn)
  simp only [sinkSelect, List.length_append, List.length_singleton, h]
  simp [hdrain queued queued.length (le_refl _)]

/-- C10, the code at the failing input. With one line "x" queued (N = 1, not more than 100)
when the batch of 100 lines "a" is flushed, the sink ends with the 100 lines
on standard output and no notice, an empty channel and an empty batch: the
line "x" has been thrown away and no later flush can write it. -/
theorem sink_drops_small_backlog :
    sinkLoop sinkScenario SinkState.init =
      { cache := [], bs := [], stdout := List.replicate 100 (Out.line (ascii "a")) } ∧
    Out.line (ascii "x") ∉ (sinkLoop sinkScenario SinkState.init).stdout ∧
    (sinkLoop (List.replicate 100 (SinkEvent.write (ascii "a")) ++
        [SinkEvent.write (ascii "x")] ++ List.replicate 99 SinkEvent.recv) SinkState.init).cache =
      [ascii "a", ascii "x"] := by
  decide

end JsRpc
